import Mathlib

/-!
Verification of the branch classification and exclusion core of a git
branch cleaner tool.  The definitions below are shallow embeddings of the
TypeScript sources (src/config.ts, src/cli.ts, src/index.ts): pure string
and list computations are translated directly, and the effectful pieces
(file system probing, JSON parsing, git subprocess calls, terminal input)
become explicit parameters describing the outcome of the effect.
-/

namespace BranchCleaner

/-- Characters that a JavaScript regular expression dot refuses to match:
line feed, carriage return, line separator (U+2028), paragraph
separator (U+2029).  `matchGlobPattern` in src/config.ts compiles the glob
to a regex in which every wildcard becomes a dot (or a dot followed by a
Kleene star), so these characters are invisible to wildcards there. -/
def isLineTerminator (c : Char) : Bool :=
  c == '\n' || c == '\r' || c == '\u2028' || c == '\u2029'

/-- Embedding of the anchored regular expression that `matchGlobPattern`
(src/config.ts lines 99-106) builds from a glob pattern and runs over the
branch name.  The translation escapes every regex metacharacter except
the wildcards, so the compiled regex is: for each pattern character, a
dot-star for an asterisk, a dot for a question mark, and a literal match
otherwise, anchored on both ends.  The JavaScript dot does not match line
terminators, hence the `isLineTerminator` guards.  The first argument is
fuel bounding the recursion depth; every recursive call shrinks the
pattern or the string, so `pattern.length + string.length` steps always
suffice. -/
def globAux : Nat → List Char → List Char → Bool
  | _, [], s => s.isEmpty
  | 0, _ :: _, _ => false
  | fuel + 1, p :: ps, s =>
    if p = '*' then
      globAux fuel ps s ||
        (match s with
         | [] => false
         | c :: cs => !(isLineTerminator c) && globAux fuel (p :: ps) cs)
    else if p = '?' then
      match s with
      | [] => false
      | c :: cs => !(isLineTerminator c) && globAux fuel ps cs
    else
      match s with
      | [] => false
      | c :: cs => (p == c) && globAux fuel ps cs

/-- The regex test of `matchGlobPattern`, at exactly sufficient fuel. -/
def regexGlob (p s : List Char) : Bool :=
  globAux (p.length + s.length) p s

/-- Embedding of `matchGlobPattern(str, pattern)` from src/config.ts
lines 93-107: an exact string-equality shortcut, then the anchored regex
compiled from the glob pattern.  Strings are modelled as sequences of
Unicode scalar values; JavaScript regexes walk UTF-16 code units, and the
two readings coincide on all strings confined to the basic multilingual
plane, which covers every well-formed git ref name. -/
def matchGlobPattern (str pattern : String) : Bool :=
  str == pattern || regexGlob pattern.data str.data

/-- Embedding of `matchesExcludePattern(branchName, patterns)` from
src/config.ts lines 84-91: the loop with early return is a disjunction
over the pattern list. -/
def matchesExcludePattern (branchName : String) (patterns : List String) : Bool :=
  patterns.any (fun pattern => matchGlobPattern branchName pattern)

/-- The glob semantics stated by the spec, for comparison with the code:
an asterisk matches zero or more arbitrary characters, a question mark
matches exactly one arbitrary character, every other character matches
only itself, anchored at both ends.  Written with the same fuel
discipline as `globAux`, but with no restriction on which characters the
wildcards may consume. -/
def specGlobAux : Nat → List Char → List Char → Bool
  | _, [], s => s.isEmpty
  | 0, _ :: _, _ => false
  | fuel + 1, p :: ps, s =>
    if p = '*' then
      specGlobAux fuel ps s ||
        (match s with
         | [] => false
         | _ :: cs => specGlobAux fuel (p :: ps) cs)
    else if p = '?' then
      match s with
      | [] => false
      | _ :: cs => specGlobAux fuel ps cs
    else
      match s with
      | [] => false
      | c :: cs => (p == c) && specGlobAux fuel ps cs

/-- The matcher behaviour claimed by the spec: the whole name is produced
by the pattern under the unrestricted glob semantics. -/
def specGlobMatch (str pattern : String) : Bool :=
  specGlobAux (pattern.data.length + str.data.length) pattern.data str.data

/-- Embedding of the `Config` interface of src/config.ts.  `staleDays` is
an integer: the TypeScript field is a JavaScript number, and every value
the program itself produces for it is an integer. -/
structure Config where
  excludePatterns : List String
  staleDays : Int
  protectedBranches : List String
deriving DecidableEq

/-- Embedding of `DEFAULT_CONFIG` from src/config.ts lines 10-26. -/
def DEFAULT_CONFIG : Config where
  excludePatterns := []
  staleDays := 30
  protectedBranches :=
    ["main", "master", "dev", "develop", "development", "stage", "staging",
     "prod", "production", "preview", "release"]

/-- The shape of a successfully parsed config file: each of the three
optional keys is present or absent (absent and JSON null both land on
`none`, exactly the cases the nullish-coalescing operator in `loadConfig`
replaces with the default). -/
structure UserConfig where
  excludePatterns : Option (List String)
  staleDays : Option Int
  protectedBranches : Option (List String)

/-- The outcome of the file-system probing done by `loadConfig`
(src/config.ts lines 36-59): an explicit custom path was given but no
file exists there; no config file was located at all (no custom path and
none of the conventional file names exist in the working directory); or
a config file was located and its content read. -/
inductive ConfigSource
  | customMissing
  | notFound
  | found (content : String)

/-- Embedding of `loadConfig` from src/config.ts lines 35-82.  The
`parseJson` parameter stands for `JSON.parse` followed by the unchecked
cast to `Partial<Config>`; a parse exception is `none` and lands in the
catch block, which warns and returns the defaults.  A missing explicit
path warns and returns the defaults; finding no file returns the
defaults; a parsed file folds the built-in protected names into the
exclude patterns and prepends them to the user protected names. -/
def loadConfig (parseJson : String → Option UserConfig) : ConfigSource → Config
  | .customMissing => DEFAULT_CONFIG
  | .notFound => DEFAULT_CONFIG
  | .found content =>
    match parseJson content with
    | none => DEFAULT_CONFIG
    | some userConfig =>
      { excludePatterns :=
          DEFAULT_CONFIG.protectedBranches ++ userConfig.excludePatterns.getD []
        staleDays := userConfig.staleDays.getD DEFAULT_CONFIG.staleDays
        protectedBranches :=
          DEFAULT_CONFIG.protectedBranches ++ userConfig.protectedBranches.getD [] }

/-- Whitespace skipped by the JavaScript `parseInt` before reading the
number: the ASCII whitespace characters, the line terminators, no-break
space, the byte-order mark, and the Unicode space separators. -/
def jsWhitespace (c : Char) : Bool :=
  c == ' ' || c == '\t' || c == '\n' || c == '\r' || c == '\x0b' ||
    c == '\x0c' || c == '\u00a0' || c == '\ufeff' || c == '\u1680' ||
    (decide ('\u2000' ≤ c) && decide (c ≤ '\u200a')) ||
    c == '\u2028' || c == '\u2029' || c == '\u202f' || c == '\u205f' ||
    c == '\u3000'

/-- Decimal value of a digit character run. -/
def digitsValue (ds : List Char) : Nat :=
  ds.foldl (fun acc c => 10 * acc + (c.toNat - 48)) 0

/-- Digit-run parsing after the optional sign: `parseInt` with radix 10
reads the longest leading run of decimal digits and ignores everything
after it; with no leading digit the result is NaN, modelled as `none`. -/
def parseUnsigned (cs : List Char) : Option Nat :=
  let ds := cs.takeWhile Char.isDigit
  if ds.isEmpty then none else some (digitsValue ds)

/-- Sign handling of `parseInt`: one optional leading plus or minus. -/
def parseSigned : List Char → Option Int
  | '-' :: rest => (parseUnsigned rest).map (fun n => -(n : Int))
  | '+' :: rest => (parseUnsigned rest).map (fun n => (n : Int))
  | cs => (parseUnsigned cs).map (fun n => (n : Int))

/-- Embedding of `parseInt(value, 10)` as used on the stale-days command
line argument in `parseArgs` (src/cli.ts lines 44-50): skip leading
whitespace, read an optional sign and then the longest run of decimal
digits; `none` models NaN. -/
def jsParseInt (s : String) : Option Int :=
  parseSigned (s.data.dropWhile jsWhitespace)

/-- The `--stale-days` handling of `parseArgs` (src/cli.ts lines 44-50):
`args.staleDays` is set exactly when a raw value follows the flag and
`parseInt` does not return NaN on it. -/
def cliStaleDays (raw : Option String) : Option Int :=
  raw.bind jsParseInt

/-- The merge performed by the caller (src/index.ts line 355):
`const staleDays = args.staleDays ?? config.staleDays`. -/
def effectiveStaleDays (raw : Option String) (config : Config) : Int :=
  (cliStaleDays raw).getD config.staleDays

/-- Modelled from the spec: the effective policy of section 3.  The
branch classifier itself is not implemented in src (classification is
delegated to the external agent loop), so the policy record follows the
spec words: exact protected names, ordered exclude patterns, and the
staleness threshold in days. -/
structure Policy where
  protectedNames : List String
  excludePatterns : List String
  staleDaysThreshold : Int

/-- What kind of branch a record describes, per the spec data model. -/
inductive BranchKind
  | localBranch
  | remoteBranch

/-- Modelled from the spec: a `BranchRecord` of section 3.  The last
commit timestamp is a point in time in milliseconds since the epoch, the
unit used by the source (`Date.now()` and `getTime()` in
`get_branch_info`). -/
structure BranchRecord where
  name : String
  kind : BranchKind
  lastCommitTimestamp : Int
  commitHash : String

/-- Milliseconds in a day, the divisor `1000 * 60 * 60 * 24` used by
`get_branch_info` in src/index.ts line 177. -/
def msPerDay : Int := 86400000

/-- Embedding of the whole-days computation of `get_branch_info`
(src/index.ts line 177): `Math.floor((Date.now() - last) / msPerDay)`,
a floor division of integers. -/
def daysSinceLastCommit (now ts : Int) : Int :=
  Int.fdiv (now - ts) msPerDay

/-- Modelled from the spec: the classifier result of section 3. -/
inductive ClassificationResult
  | protectedBranch
  | excludedByPattern
  | eligible
  | keep
deriving DecidableEq

/-- Modelled from the spec: `classify` of section 4.3, which src does not
implement (the decision is delegated to the external agent).  First match
wins: exact protected name, then exclude pattern under the glob matcher
of src/config.ts, then merged status, then strict staleness, else keep.
The glob matcher and the whole-days computation are the ones embedded
from the source. -/
def classify (branch : BranchRecord) (policy : Policy) (mergedIntoMain : Bool)
    (now : Int) : ClassificationResult :=
  if branch.name ∈ policy.protectedNames then .protectedBranch
  else if matchesExcludePattern branch.name policy.excludePatterns then .excludedByPattern
  else if mergedIntoMain then .eligible
  else if policy.staleDaysThreshold < daysSinceLastCommit now branch.lastCommitTimestamp then
    .eligible
  else .keep

/-- The JSON payload shape each git tool returns: a success flag plus an
optional message and an optional error string. -/
structure ToolResult where
  success : Bool
  message : Option String
  error : Option String
deriving DecidableEq

/-- Embedding of the `delete_local_branch` tool body (src/index.ts lines
185-205).  `currentBranch` is the answer of the `git rev-parse
--abbrev-ref HEAD` query that runs first; `gitOutcome` is what executing
the deletion command would produce.  The second component records the
deletion command actually executed: `none` means no deletion command ran
at all. -/
def delete_local_branch (currentBranch branch_name : String) (force : Bool)
    (gitOutcome : Except String Unit) : ToolResult × Option String :=
  if currentBranch == branch_name then
    ({ success := false, message := none,
       error := some "Cannot delete the currently checked out branch" }, none)
  else
    match gitOutcome with
    | .ok _ =>
      ({ success := true,
         message := some ("Local branch " ++ branch_name ++ " deleted successfully"),
         error := none },
       some ("git branch " ++ (if force then "-D" else "-d") ++ " " ++ branch_name))
    | .error e =>
      ({ success := false, message := none, error := some e },
       some ("git branch " ++ (if force then "-D" else "-d") ++ " " ++ branch_name))

/-- First-occurrence replacement, the semantics of the JavaScript
`String.prototype.replace` with a plain string pattern as used in
`get_main_branch`: only the first occurrence of the pattern is replaced;
with no occurrence the string is unchanged; the empty pattern matches at
the start. -/
def replaceFirst (pat rep : List Char) : List Char → List Char
  | [] => if pat.isEmpty then rep else []
  | c :: cs =>
    if pat.isPrefixOf (c :: cs) then rep ++ (c :: cs).drop pat.length
    else c :: replaceFirst pat rep cs

/-- Embedding of the `get_main_branch` tool body (src/index.ts lines
243-261).  The two booleans say whether `git rev-parse --verify` resolves
`main` and `master`; `remoteHead` is the trimmed output of `git
symbolic-ref refs/remotes/origin/HEAD` when that call succeeds, `none`
when it throws. -/
def get_main_branch (mainResolves masterResolves : Bool)
    (remoteHead : Option String) : String :=
  if mainResolves then "main"
  else if masterResolves then "master"
  else
    match remoteHead with
    | some h => String.mk (replaceFirst ("refs/remotes/origin/").data [] h.data)
    | none => "main"

/-- ASCII lowercasing of one character, the fragment of the JavaScript
`toLowerCase` that can influence an equality test against the all-ASCII
strings of the confirmation check (no non-ASCII character lowercases to
the letters y, e or s). -/
def asciiLower (c : Char) : Char :=
  if 'A' ≤ c ∧ c ≤ 'Z' then Char.ofNat (c.toNat + 32) else c

/-- Lowercasing of the typed answer, `answer.toLowerCase()`. -/
def lowercaseAnswer (answer : String) : String :=
  String.mk (answer.data.map asciiLower)

/-- Embedding of the accept test of `askUserConfirmation` (src/index.ts
line 75): the boolean result sent back through the confirmation tool is
true exactly when the lowercased answer equals yes or y. -/
def isConfirmedAnswer (answer : String) : Bool :=
  lowercaseAnswer answer == "yes" || lowercaseAnswer answer == "y"

theorem globAux_nil (f : Nat) (s : List Char) : globAux f [] s = s.isEmpty := by
  cases f <;> rfl

theorem specGlobAux_nil (f : Nat) (s : List Char) : specGlobAux f [] s = s.isEmpty := by
  cases f <;> rfl

theorem globAux_succ (f : Nat) (a : Char) (as s : List Char) :
    globAux (f + 1) (a :: as) s =
      if a = '*' then
        globAux f as s ||
          (match s with
           | [] => false
           | c :: cs => !(isLineTerminator c) && globAux f (a :: as) cs)
      else if a = '?' then
        match s with
        | [] => false
        | c :: cs => !(isLineTerminator c) && globAux f as cs
      else
        match s with
        | [] => false
        | c :: cs => (a == c) && globAux f as cs := rfl

theorem specGlobAux_succ (f : Nat) (a : Char) (as s : List Char) :
    specGlobAux (f + 1) (a :: as) s =
      if a = '*' then
        specGlobAux f as s ||
          (match s with
           | [] => false
           | _ :: cs => specGlobAux f (a :: as) cs)
      else if a = '?' then
        match s with
        | [] => false
        | _ :: cs => specGlobAux f as cs
      else
        match s with
        | [] => false
        | c :: cs => (a == c) && specGlobAux f as cs := rfl

theorem globAux_eq_specGlobAux (f : Nat) (p s : List Char)
    (h : s.all (fun c => !isLineTerminator c) = true) :
    globAux f p s = specGlobAux f p s := by
  induction f generalizing p s with
  | zero => cases p <;> rfl
  | succ f ih =>
    cases p with
    | nil => rfl
    | cons a as =>
      rw [globAux_succ, specGlobAux_succ]
      by_cases ha : a = '*'
      · rw [if_pos ha, if_pos ha]
        cases s with
        | nil => rw [ih as [] rfl]
        | cons c cs =>
          simp only [List.all_cons, Bool.and_eq_true, Bool.not_eq_true'] at h
          obtain ⟨hc, hcs⟩ := h
          have h1 := ih as (c :: cs)
            (by simp [List.all_cons, hc, hcs, Bool.not_eq_true'])
          have h2 := ih (a :: as) cs hcs
          simp only [hc, Bool.not_false, Bool.true_and, h1, h2]
      · rw [if_neg ha, if_neg ha]
        by_cases hq : a = '?'
        · rw [if_pos hq, if_pos hq]
          cases s with
          | nil => rfl
          | cons c cs =>
            simp only [List.all_cons, Bool.and_eq_true, Bool.not_eq_true'] at h
            obtain ⟨hc, hcs⟩ := h
            have h1 := ih as cs hcs
            simp only [hc, Bool.not_false, Bool.true_and, h1]
        · rw [if_neg hq, if_neg hq]
          cases s with
          | nil => rfl
          | cons c cs =>
            simp only [List.all_cons, Bool.and_eq_true, Bool.not_eq_true'] at h
            obtain ⟨hc, hcs⟩ := h
            have h1 := ih as cs hcs
            simp only [h1]

theorem specGlobAux_self (p : List Char) (f : Nat) (hf : 2 * p.length ≤ f) :
    specGlobAux f p p = true := by
  induction p generalizing f with
  | nil => cases f <;> rfl
  | cons a as ih =>
    simp only [List.length_cons] at hf
    obtain ⟨f, rfl⟩ : ∃ g, f = g + 1 := by
      cases f with
      | zero => omega
      | succ g => exact ⟨g, rfl⟩
    by_cases ha : a = '*'
    · obtain ⟨f, rfl⟩ : ∃ g, f = g + 1 := by
        cases f with
        | zero => omega
        | succ g => exact ⟨g, rfl⟩
      have h1 : specGlobAux f as as = true := ih f (by omega)
      have h2 : specGlobAux (f + 1) (a :: as) as = true := by
        rw [specGlobAux_succ, if_pos ha, h1, Bool.true_or]
      rw [specGlobAux_succ, if_pos ha]
      show (specGlobAux (f + 1) as (a :: as) || specGlobAux (f + 1) (a :: as) as) = true
      rw [h2, Bool.or_true]
    · by_cases hq : a = '?'
      · have h1 : specGlobAux f as as = true := ih f (by omega)
        rw [specGlobAux_succ, if_neg ha, if_pos hq]
        exact h1
      · have h1 : specGlobAux f as as = true := ih f (by omega)
        rw [specGlobAux_succ, if_neg ha, if_neg hq]
        simp only [beq_self_eq_true, Bool.true_and]
        exact h1

theorem globAux_literal (p : List Char) (f : Nat) (s : List Char)
    (hp : ∀ c ∈ p, c ≠ '*' ∧ c ≠ '?') (hf : p.length + s.length ≤ f) :
    (globAux f p s = true ↔ s = p) := by
  induction p generalizing f s with
  | nil =>
    rw [globAux_nil]
    cases s <;> simp
  | cons a as ih =>
    simp only [List.length_cons] at hf
    obtain ⟨f, rfl⟩ : ∃ g, f = g + 1 := by
      cases f with
      | zero => omega
      | succ g => exact ⟨g, rfl⟩
    obtain ⟨ha, hq⟩ := hp a (List.mem_cons_self a as)
    have has : ∀ c ∈ as, c ≠ '*' ∧ c ≠ '?' := fun c hc => hp c (List.mem_cons_of_mem a hc)
    rw [globAux_succ, if_neg ha, if_neg hq]
    cases s with
    | nil => simp
    | cons c cs =>
      simp only [List.length_cons] at hf
      have hfs : as.length + cs.length ≤ f := by omega
      simp only [Bool.and_eq_true, beq_iff_eq, ih f cs has hfs, List.cons.injEq]
      constructor
      · rintro ⟨h1, h2⟩; exact ⟨h1.symm, h2⟩
      · rintro ⟨h1, h2⟩; exact ⟨h1.symm, h2⟩

example : matchGlobPattern "feature-x" "feature-*" = true := by decide
example : matchGlobPattern "feature" "feature-*" = false := by decide
example : matchGlobPattern "release-1.2" "release-*" = true := by decide
example : matchGlobPattern "release-1x2" "release-1.2" = false := by decide
example : matchGlobPattern "ab" "a?" = true := by decide
example : matchGlobPattern "abc" "a?" = false := by decide
example : matchGlobPattern "feat/x/y" "feat-*" = false := by decide
example : matchGlobPattern "feat/x/y" "feat*" = true := by decide
example : matchGlobPattern "a\nb" "a*b" = false := by decide
example : specGlobMatch "a\nb" "a*b" = true := by decide

/-- C2, counterexample: the claim says the asterisk matches zero or more
arbitrary characters, but the regex built by `matchGlobPattern` uses the
JavaScript dot, which does not match line terminators.  On the name with
an embedded line feed and the pattern with an asterisk in that position,
the code answers false while the claimed glob semantics answers true. -/
theorem claim_C2_counterexample :
    matchGlobPattern "a\nb" "a*b" = false ∧ specGlobMatch "a\nb" "a*b" = true := by
  decide

/-- C2 (amended): for every branch name free of line-terminator
characters (U+000A, U+000D, U+2028, U+2029) and every pattern, the glob
matcher agrees exactly with the spec semantics: the whole name, anchored
at both ends, is produced by the pattern with the asterisk matching zero
or more arbitrary characters (slashes included), the question mark one
arbitrary character, and every other character only itself,
case-sensitively. -/
theorem claim_C2_matchGlobPattern_eq_spec (str pattern : String)
    (h : str.data.all (fun c => !isLineTerminator c) = true) :
    matchGlobPattern str pattern = specGlobMatch str pattern := by
  unfold matchGlobPattern specGlobMatch regexGlob
  by_cases he : str = pattern
  · subst he
    rw [beq_self_eq_true, Bool.true_or]
    exact (specGlobAux_self str.data _ (by omega)).symm
  · rw [beq_eq_false_iff_ne.mpr he, Bool.false_or]
    exact globAux_eq_specGlobAux _ _ _ h

/-- C2, witness: the amended theorem applied at a concrete name and
pattern. -/
theorem claim_C2_witness :
    ("feature-x".data.all (fun c => !isLineTerminator c) = true) ∧
      matchGlobPattern "feature-x" "feature-*" = specGlobMatch "feature-x" "feature-*" :=
  ⟨by decide, claim_C2_matchGlobPattern_eq_spec "feature-x" "feature-*" (by decide)⟩

/-- C3: for patterns containing no wildcard character, matching is exact
string equality; exact equality of name and pattern is always a match
whatever the pattern contains; and the empty pattern matches only the
empty name. -/
theorem claim_C3_no_wildcard_exact_match (n p : String) :
    ((∀ c ∈ p.data, c ≠ '*' ∧ c ≠ '?') → matchGlobPattern n p = (n == p)) ∧
      matchGlobPattern p p = true ∧
      (matchGlobPattern n "" = true ↔ n = "") := by
  refine ⟨?_, ?_, ?_⟩
  · intro hp
    by_cases he : n = p
    · subst he
      simp [matchGlobPattern]
    · have hne : (n == p) = false := beq_eq_false_iff_ne.mpr he
      unfold matchGlobPattern regexGlob
      rw [hne, Bool.false_or]
      have hiff := globAux_literal p.data (p.data.length + n.data.length) n.data hp (le_refl _)
      have hdata : ¬n.data = p.data := fun hd => he (String.ext hd)
      exact Bool.eq_false_iff.mpr (fun ht => hdata (hiff.mp ht))
  · simp [matchGlobPattern]
  · by_cases he : n = ""
    · subst he
      simp [matchGlobPattern]
    · have hne : (n == "") = false := beq_eq_false_iff_ne.mpr he
      unfold matchGlobPattern regexGlob
      rw [hne, Bool.false_or]
      have hd : ("" : String).data = [] := rfl
      rw [hd]
      rw [globAux_nil]
      constructor
      · intro hi
        exact String.ext (by simpa [List.isEmpty_iff] using hi)
      · intro hn
        subst hn
        rfl

/-- C3, witness: the wildcard-free part of the theorem applied at a
concrete name and pattern. -/
theorem claim_C3_witness :
    (∀ c ∈ "release".data, c ≠ '*' ∧ c ≠ '?') ∧
      matchGlobPattern "hotfix-1" "release" = ("hotfix-1" == "release") :=
  ⟨by decide, (claim_C3_no_wildcard_exact_match "hotfix-1" "release").1 (by decide)⟩

/-- C4: on every outcome of configuration resolution, every built-in
protected name is still among the protected branches; merging user
configuration never removes a built-in. -/
theorem claim_C4_protected_superset (parseJson : String → Option UserConfig)
    (src : ConfigSource) (b : String) (hb : b ∈ DEFAULT_CONFIG.protectedBranches) :
    b ∈ (loadConfig parseJson src).protectedBranches := by
  cases src with
  | customMissing => exact hb
  | notFound => exact hb
  | found content =>
    cases hpc : parseJson content with
    | none => simpa [loadConfig, hpc] using hb
    | some u =>
      simp only [loadConfig, hpc]
      exact List.mem_append_left _ hb

/-- C4, witness: the built-in name main survives a resolution that finds
no config file. -/
theorem claim_C4_witness :
    "main" ∈ DEFAULT_CONFIG.protectedBranches ∧
      "main" ∈ (loadConfig (fun _ => none) ConfigSource.notFound).protectedBranches :=
  ⟨by decide,
   claim_C4_protected_superset (fun _ => none) ConfigSource.notFound "main" (by decide)⟩

/-- C5: configuration loading is a total function of the probing outcome
and never raises; a missing explicit config path yields exactly the
built-in defaults, and so does a config file whose content fails to
parse. -/
theorem claim_C5_fallback_to_defaults (parseJson : String → Option UserConfig) :
    loadConfig parseJson ConfigSource.customMissing = DEFAULT_CONFIG ∧
      ∀ content, parseJson content = none →
        loadConfig parseJson (ConfigSource.found content) = DEFAULT_CONFIG := by
  refine ⟨rfl, ?_⟩
  intro content h
  simp [loadConfig, h]

/-- C5, witness: the theorem applied to a parse function that rejects
everything, at a concrete unparsable content. -/
theorem claim_C5_witness :
    loadConfig (fun _ => none) ConfigSource.customMissing = DEFAULT_CONFIG ∧
      loadConfig (fun _ => none) (ConfigSource.found "not json") = DEFAULT_CONFIG :=
  ⟨(claim_C5_fallback_to_defaults (fun _ => none)).1,
   (claim_C5_fallback_to_defaults (fun _ => none)).2 "not json" rfl⟩

/-- C6, counterexample: the claim says a CLI stale-days value replaces
the configured value only when it is a valid non-negative integer, but
`parseInt` accepts a negative value, which is then installed by the
nullish-coalescing merge: with the CLI argument -5 the effective
threshold becomes -5 instead of staying at the configured 30. -/
theorem claim_C6_counterexample :
    effectiveStaleDays (some "-5") DEFAULT_CONFIG = -5 ∧
      effectiveStaleDays (some "-5") DEFAULT_CONFIG ≠ DEFAULT_CONFIG.staleDays := by
  decide

/-- C6 (amended): the effective threshold is the config-file value when
present, else the default 30; a CLI stale-days value replaces that
result exactly when `parseInt(value, 10)` yields a number, that is when
the value starts (after optional whitespace and sign) with a decimal
digit, the parsed value possibly being negative and trailing non-digits
being ignored; a CLI value with no parsable leading integer leaves the
configured value unchanged. -/
theorem claim_C6_staleDays_resolution (cfg : Config) :
    effectiveStaleDays none cfg = cfg.staleDays ∧
      (∀ v, jsParseInt v = none → effectiveStaleDays (some v) cfg = cfg.staleDays) ∧
      (∀ v k, jsParseInt v = some k → effectiveStaleDays (some v) cfg = k) ∧
      (∀ (parseJson : String → Option UserConfig) content u d,
        parseJson content = some u → u.staleDays = some d →
        (loadConfig parseJson (ConfigSource.found content)).staleDays = d) ∧
      (∀ (parseJson : String → Option UserConfig) content u,
        parseJson content = some u → u.staleDays = none →
        (loadConfig parseJson (ConfigSource.found content)).staleDays = 30) := by
  refine ⟨rfl, ?_, ?_, ?_, ?_⟩
  · intro v h
    simp [effectiveStaleDays, cliStaleDays, h]
  · intro v k h
    simp [effectiveStaleDays, cliStaleDays, h]
  · intro pj content u d h hu
    simp [loadConfig, h, hu]
  · intro pj content u h hu
    simp [loadConfig, h, hu, DEFAULT_CONFIG]

/-- C6, witness: a parsable CLI value replaces the configured threshold
and an unparsable one leaves it at the default 30. -/
theorem claim_C6_witness :
    jsParseInt "60" = some 60 ∧ effectiveStaleDays (some "60") DEFAULT_CONFIG = 60 ∧
      jsParseInt "abc" = none ∧ effectiveStaleDays (some "abc") DEFAULT_CONFIG = 30 :=
  ⟨by decide, (claim_C6_staleDays_resolution DEFAULT_CONFIG).2.2.1 "60" 60 (by decide),
   by decide, (claim_C6_staleDays_resolution DEFAULT_CONFIG).2.1 "abc" (by decide)⟩

/-- C7: deleting the currently checked-out branch is refused with the
specific error string and with no deletion command executed; the guard
answers before any destructive operation regardless of the force flag or
of what the deletion command would have returned. -/
theorem claim_C7_refuses_current_branch (name : String) (force : Bool)
    (gitOutcome : Except String Unit) :
    delete_local_branch name name force gitOutcome =
      ({ success := false, message := none,
         error := some "Cannot delete the currently checked out branch" }, none) := by
  simp [delete_local_branch]

/-- Replacing a first occurrence that sits at the very front of the
string keeps exactly the remainder. -/
theorem replaceFirst_prefix (p rep l : List Char) :
    replaceFirst p rep (p ++ l) = rep ++ l := by
  cases p with
  | nil =>
    cases l with
    | nil => simp [replaceFirst]
    | cons c cs => simp [replaceFirst, List.isPrefixOf]
  | cons a as =>
    have hpre : (a :: as).isPrefixOf (a :: (as ++ l)) = true := by
      rw [List.isPrefixOf_iff_prefix]
      exact ⟨l, rfl⟩
    show replaceFirst (a :: as) rep (a :: (as ++ l)) = rep ++ l
    simp only [replaceFirst, List.append_eq, hpre, if_true, List.length_cons,
      List.drop_succ_cons, List.drop_left]

/-- C8: the main-branch detection follows the fixed fallback chain: main
when that ref resolves, otherwise master when that one resolves,
otherwise the name obtained by stripping the remote prefix from the
symbolic default reference, and main when none of the three resolve. -/
theorem claim_C8_main_branch_fallback_chain :
    (∀ (masterResolves : Bool) (remoteHead : Option String),
      get_main_branch true masterResolves remoteHead = "main") ∧
      (∀ remoteHead : Option String, get_main_branch false true remoteHead = "master") ∧
      (∀ h : String, get_main_branch false false (some h) =
        String.mk (replaceFirst ("refs/remotes/origin/").data [] h.data)) ∧
      (∀ n : String,
        get_main_branch false false (some ("refs/remotes/origin/" ++ n)) = n) ∧
      get_main_branch false false none = "main" := by
  refine ⟨fun _ _ => rfl, fun _ => rfl, fun _ => rfl, ?_, rfl⟩
  intro n
  show String.mk
      (replaceFirst ("refs/remotes/origin/").data [] ("refs/remotes/origin/" ++ n).data) = n
  rw [String.data_append, replaceFirst_prefix, List.nil_append]

/-- C9: the confirmation is accepted exactly when the lowercased answer
is yes or y; the empty answer and any other word are cancellations. -/
theorem claim_C9_confirmation_exact :
    (∀ answer : String, isConfirmedAnswer answer = true ↔
      (lowercaseAnswer answer = "yes" ∨ lowercaseAnswer answer = "y")) ∧
      isConfirmedAnswer "" = false ∧ isConfirmedAnswer "ok" = false ∧
      isConfirmedAnswer "sure" = false ∧ isConfirmedAnswer "yes" = true ∧
      isConfirmedAnswer "YES" = true ∧ isConfirmedAnswer "Yes" = true ∧
      isConfirmedAnswer "y" = true ∧ isConfirmedAnswer "Y" = true ∧
      isConfirmedAnswer "no" = false := by
  refine ⟨?_, by decide, by decide, by decide, by decide, by decide, by decide,
    by decide, by decide, by decide⟩
  intro answer
  simp [isConfirmedAnswer, Bool.or_eq_true, beq_iff_eq]

/-- C1, counterexample: a branch that is excluded by a pattern and merged
but also carries a protected name classifies as protected, not as
excluded by pattern, because the protected-name test runs first; the
claim that every excluded-and-merged branch yields excludedByPattern is
therefore too strong. -/
theorem claim_C1_counterexample :
    classify ⟨"main", BranchKind.localBranch, 0, "abc1234"⟩
        ⟨DEFAULT_CONFIG.protectedBranches, ["main"], 30⟩ true 0 =
      ClassificationResult.protectedBranch ∧
      matchesExcludePattern "main" ["main"] = true ∧
      ClassificationResult.protectedBranch ≠ ClassificationResult.excludedByPattern := by
  decide

/-- C1 (amended): the classifier decides in the fixed order protected
name, exclude pattern, merged, stale, keep; every branch that is not
protected by name, is excluded by a pattern and is merged yields
excludedByPattern; merged wins over staleness; the staleness test is a
strict comparison, so a branch whose last commit is exactly the
threshold number of days before now is kept, not stale. -/
theorem claim_C1_classification_order (b : BranchRecord) (p : Policy) (m : Bool)
    (now : Int) :
    (b.name ∈ p.protectedNames →
      classify b p m now = ClassificationResult.protectedBranch) ∧
      (b.name ∉ p.protectedNames →
        matchesExcludePattern b.name p.excludePatterns = true →
        classify b p m now = ClassificationResult.excludedByPattern) ∧
      (b.name ∉ p.protectedNames →
        matchesExcludePattern b.name p.excludePatterns = false →
        m = true → classify b p m now = ClassificationResult.eligible) ∧
      (b.name ∉ p.protectedNames →
        matchesExcludePattern b.name p.excludePatterns = false → m = false →
        (p.staleDaysThreshold < daysSinceLastCommit now b.lastCommitTimestamp →
          classify b p m now = ClassificationResult.eligible) ∧
        (daysSinceLastCommit now b.lastCommitTimestamp ≤ p.staleDaysThreshold →
          classify b p m now = ClassificationResult.keep)) ∧
      (b.name ∉ p.protectedNames →
        matchesExcludePattern b.name p.excludePatterns = false → m = false →
        now - b.lastCommitTimestamp = p.staleDaysThreshold * msPerDay →
        classify b p m now = ClassificationResult.keep) := by
  refine ⟨?_, ?_, ?_, ?_, ?_⟩
  · intro h
    simp [classify, h]
  · intro h hm
    simp [classify, h, hm]
  · intro h hm hmerged
    subst hmerged
    simp [classify, h, hm]
  · intro h hm hmerged
    subst hmerged
    constructor
    · intro hst
      simp [classify, h, hm, hst]
    · intro hle
      simp [classify, h, hm, not_lt.mpr hle]
  · intro h hm hmerged hts
    subst hmerged
    have hd : daysSinceLastCommit now b.lastCommitTimestamp = p.staleDaysThreshold := by
      unfold daysSinceLastCommit
      rw [hts]
      exact Int.mul_fdiv_cancel _ (by norm_num [msPerDay])
    simp [classify, h, hm, hd]

/-- C1, witness: the spec scenario of a merged branch named
release-candidate matching the exclude pattern release-star classifies
as excluded by pattern, not eligible. -/
theorem claim_C1_witness :
    classify ⟨"release-candidate", BranchKind.localBranch, 0, "abc1234"⟩
        ⟨DEFAULT_CONFIG.protectedBranches, ["release-*"], 30⟩ true 0 =
      ClassificationResult.excludedByPattern :=
  (claim_C1_classification_order ⟨"release-candidate", BranchKind.localBranch, 0, "abc1234"⟩
    ⟨DEFAULT_CONFIG.protectedBranches, ["release-*"], 30⟩ true 0).2.1
    (by decide) (by decide)

/-- C10: the built-in protected names are folded into the effective
exclude patterns only when a config file was located and parsed
successfully; with no file found, a missing explicit path, or a parse
failure, the exclude patterns are empty. -/
theorem claim_C10_exclude_fold_only_on_parse (parseJson : String → Option UserConfig) :
    (loadConfig parseJson ConfigSource.customMissing).excludePatterns = [] ∧
      (loadConfig parseJson ConfigSource.notFound).excludePatterns = [] ∧
      (∀ content, parseJson content = none →
        (loadConfig parseJson (ConfigSource.found content)).excludePatterns = []) ∧
      (∀ content u, parseJson content = some u →
        (loadConfig parseJson (ConfigSource.found content)).excludePatterns =
          DEFAULT_CONFIG.protectedBranches ++ u.excludePatterns.getD []) := by
  refine ⟨rfl, rfl, ?_, ?_⟩
  · intro content h
    simp [loadConfig, h, DEFAULT_CONFIG]
  · intro content u h
    simp [loadConfig, h]

/-- C10, witness: a failing parse yields empty exclude patterns and a
successful parse folds the built-in names in front of the user
patterns. -/
theorem claim_C10_witness :
    (loadConfig (fun _ => none) (ConfigSource.found "x")).excludePatterns = [] ∧
      (loadConfig (fun _ => some ⟨some ["wip-*"], none, none⟩)
          (ConfigSource.found "x")).excludePatterns =
        DEFAULT_CONFIG.protectedBranches ++ ["wip-*"] :=
  ⟨(claim_C10_exclude_fold_only_on_parse (fun _ => none)).2.2.1 "x" rfl,
   (claim_C10_exclude_fold_only_on_parse (fun _ => some ⟨some ["wip-*"], none, none⟩)).2.2.2
     "x" ⟨some ["wip-*"], none, none⟩ rfl⟩

end BranchCleaner
